import Mathlib

/-!
# GP5 binary codec: verification of the decoder scripts

A shallow embedding of the GP5 (Guitar Pro 5) binary decoder found in
`analyze_gp5.py` (class `GP5Analyzer`), the repository's most complete
decoder, against which the specification's claims are checked.

Byte streams are modelled as `List Nat` (one entry per byte); every reader
consumes a prefix of the stream and returns the parsed value together with
the remaining stream, or `none` when the stream is too short
(Python raises `IndexError` / `struct.error` there).  Python's `skip`
advances the cursor unconditionally, which corresponds to `List.drop`.
Signed values use explicit two's-complement conversion, exactly as
`struct.unpack('b' / '<h' / '<i')` does.
-/

namespace GP5

/-- Two's-complement value of one byte, as `struct.unpack('b', ...)`. -/
def sint8 (u : Nat) : Int :=
  if u % 256 < 128 then ((u % 256 : Nat) : Int) else ((u % 256 : Nat) : Int) - 256

/-- Two's-complement value of a 16-bit little-endian quantity, as `struct.unpack('<h', ...)`. -/
def sint16 (u : Nat) : Int :=
  if u % 65536 < 32768 then ((u % 65536 : Nat) : Int) else ((u % 65536 : Nat) : Int) - 65536

/-- Two's-complement value of a 32-bit little-endian quantity, as `struct.unpack('<i', ...)`. -/
def sint32 (u : Nat) : Int :=
  if u % 4294967296 < 2147483648 then ((u % 4294967296 : Nat) : Int)
  else ((u % 4294967296 : Nat) : Int) - 4294967296

/-- `GP5Analyzer.read_byte`: one unsigned byte. -/
def read_byte : List Nat → Option (Nat × List Nat)
  | [] => none
  | b :: d => some (b, d)

/-- `GP5Analyzer.read_sbyte`: one signed byte. -/
def read_sbyte (d : List Nat) : Option (Int × List Nat) :=
  (read_byte d).map fun p => (sint8 p.1, p.2)

/-- `GP5Analyzer.read_short`: two bytes, little-endian, signed. -/
def read_short : List Nat → Option (Int × List Nat)
  | b0 :: b1 :: d => some (sint16 (b0 + 256 * b1), d)
  | _ => none

/-- `GP5Analyzer.read_int`: four bytes, little-endian, signed. -/
def read_int : List Nat → Option (Int × List Nat)
  | b0 :: b1 :: b2 :: b3 :: d =>
      some (sint32 (b0 + 256 * b1 + 65536 * b2 + 16777216 * b3), d)
  | _ => none

/-- `GP5Analyzer.read_bool`: one byte, true iff nonzero. -/
def read_bool (d : List Nat) : Option (Bool × List Nat) :=
  (read_byte d).map fun p => (decide (p.1 ≠ 0), p.2)

/-- Sequencing of a value-producing read with the rest of a decoder.  (The
standard `Option.bind` is `@[inline]`; a non-inlined combinator keeps the
compiled code of the long decoder chains linear in their length.) -/
def obind (x : Option (α × List Nat)) (f : α → List Nat → Option β) : Option β :=
  match x with
  | none => none
  | some (a, d) => f a d

/-- Sequencing of a consume-only read with the rest of a decoder. -/
def sbind (x : Option (List Nat)) (f : List Nat → Option β) : Option β :=
  match x with
  | none => none
  | some d => f d

/-- Read a value only when `c` holds (the ubiquitous `if flags & mask:` pattern). -/
def readIf (c : Prop) [Decidable c] (rd : List Nat → Option (α × List Nat))
    (d : List Nat) : Option (Option α × List Nat) :=
  if c then obind (rd d) (fun a d => some (some a, d)) else some (none, d)

/-- Run a stream consumer only when `c` holds (fields that are read and discarded). -/
def skipIf (c : Prop) [Decidable c] (k : List Nat → Option (List Nat))
    (d : List Nat) : Option (List Nat) :=
  if c then k d else some d

/-- Consume `n` bytes through `read_byte` (fails when the stream is shorter). -/
def read_skip : Nat → List Nat → Option (List Nat)
  | 0, d => some d
  | n + 1, d => obind (read_byte d) fun _ d => read_skip n d

/-- `GP5Analyzer.read_byte_size_string`: 1 length byte, `size` content bytes;
returns the first `length` content bytes, always skipping `size` bytes. -/
def read_byte_size_string (size : Nat) (d : List Nat) : Option (List Nat × List Nat) :=
  obind (read_byte d) fun len d =>
  some (d.take len, d.drop size)

/-- `GP5Analyzer.read_int_byte_size_string`: 4-byte total size `S`; when `S <= 0`
returns the empty string consuming nothing further; otherwise 1 length byte `L`,
the first `L` bytes of the content, and the cursor skips `S - 1` bytes of content. -/
def read_int_byte_size_string (d : List Nat) : Option (List Nat × List Nat) :=
  obind (read_int d) fun total d =>
  if total ≤ 0 then
    some ([], d)
  else
    obind (read_byte d) fun len d =>
    some (d.take len, d.drop (total - 1).toNat)

/-- `GP5Analyzer.read_int_size_string`: 4-byte length plus that many raw bytes. -/
def read_int_size_string (d : List Nat) : Option (List Nat × List Nat) :=
  obind (read_int d) fun len d =>
  if len ≤ 0 then
    some ([], d)
  else
    some (d.take len.toNat, d.drop len.toNat)

/-- Version tuples `(major, minor, revision)` as Python builds them. -/
abbrev Version := Nat × Nat × Nat

/-- Python's lexicographic `>` on 3-tuples, used as `self.versionTuple > (5, 0, 0)`. -/
def vgt : Version → Version → Bool
  | (a1, a2, a3), (b1, b2, b3) =>
    if a1 = b1 then (if a2 = b2 then decide (a3 > b3) else decide (a2 > b2))
    else decide (a1 > b1)

/-- Python's lexicographic `>=` on 3-tuples, used as `self.versionTuple >= (5, 1, 0)`. -/
def vge (a b : Version) : Bool := vgt a b || decide (a = b)

/-- Byte list of the literal `'FICHIER GUITAR PRO v5.00'`. -/
def marker500 : List Nat := (String.toList "FICHIER GUITAR PRO v5.00").map Char.toNat

/-- Byte list of the literal `'FICHIER GUITAR PRO v5.10'`. -/
def marker510 : List Nat := (String.toList "FICHIER GUITAR PRO v5.10").map Char.toNat

/-- The version-marker tests of `GP5Analyzer.read_version`: Python's substring
`in` check is contiguous-infix containment; an unrecognized string leaves the
tuple at the `__init__` default `(5, 0, 0)`. -/
def version_tuple_of (v : List Nat) : Version :=
  if marker500 <:+: v then (5, 0, 0)
  else if marker510 <:+: v then (5, 1, 0)
  else (5, 0, 0)

/-- `GP5Analyzer.read_version`: a 30-byte fixed string, then the marker tests. -/
def read_version (d : List Nat) : Option ((List Nat × Version) × List Nat) :=
  obind (read_byte_size_string 30 d) fun version d =>
  some ((version, version_tuple_of version), d)

/-- `GP5Analyzer.read_rse_master_effect`: master volume int, unknown int,
11 signed equalizer bytes and a gain-preset byte, read only when
`versionTuple > (5, 0, 0)`; nothing is read for `(5, 0, 0)`. -/
def read_rse_master_effect (v : Version) (d : List Nat) : Option (List Nat) :=
  if vgt v (5, 0, 0) then
    obind (read_int d) fun _ d =>
    obind (read_int d) fun _ d =>
    sbind (read_skip 11 d) fun d =>
    obind (read_byte d) fun _ d =>
    some d
  else
    some d

/-- The hide-tempo read of `GP5Analyzer.analyze` (a bool read only when
`versionTuple > (5, 0, 0)`, right after the tempo int). -/
def read_hide_tempo (v : Version) (d : List Nat) : Option (List Nat) :=
  if vgt v (5, 0, 0) then (read_bool d).map (·.2) else some d

/-- The `(int, int, byte)` point triples of bend and tremolo-bar curves. -/
def read_points : Nat → List Nat → Option (List Nat)
  | 0, d => some d
  | n + 1, d =>
    obind (read_int d) fun _ d =>
    obind (read_int d) fun _ d =>
    obind (read_byte d) fun _ d =>
    read_points n d

/-- `GP5Analyzer.read_note_effects`: two flag bytes, then bend (bit0 of flags1),
grace = 5 bytes (bit4 of flags1), tremolo picking (bit2 of flags2), slide
(bit3 of flags2), harmonic with type-dependent extras (bit4 of flags2) and
trill (bit5 of flags2). -/
def read_note_effects (d : List Nat) : Option (List Nat) :=
  obind (read_byte d) fun flags1 d =>
  obind (read_byte d) fun flags2 d =>
  sbind (skipIf (flags1 &&& 0x01 ≠ 0) (fun d =>
    obind (read_byte d) fun _ d =>
    obind (read_int d) fun _ d =>
    obind (read_int d) fun pc d =>
    read_points pc.toNat d) d) fun d =>
  sbind (skipIf (flags1 &&& 0x10 ≠ 0) (read_skip 5) d) fun d =>
  sbind (skipIf (flags2 &&& 0x04 ≠ 0) (read_skip 1) d) fun d =>
  sbind (skipIf (flags2 &&& 0x08 ≠ 0) (read_skip 1) d) fun d =>
  sbind (skipIf (flags2 &&& 0x10 ≠ 0) (fun d =>
    obind (read_sbyte d) fun h d =>
    if h = 2 then read_skip 3 d
    else if h = 3 then read_skip 1 d
    else some d) d) fun d =>
  sbind (skipIf (flags2 &&& 0x20 ≠ 0) (read_skip 2) d) fun d =>
  some d

/-- `GP5Analyzer.read_beat_effects`: two flag bytes, then slap (bit5 of flags1),
tremolo bar (bit2 of flags2), stroke pair (bit6 of flags1), pick stroke
(bit1 of flags2), in that order. -/
def read_beat_effects (d : List Nat) : Option (List Nat) :=
  obind (read_byte d) fun flags1 d =>
  obind (read_byte d) fun flags2 d =>
  sbind (skipIf (flags1 &&& 0x20 ≠ 0) (read_skip 1) d) fun d =>
  sbind (skipIf (flags2 &&& 0x04 ≠ 0) (fun d =>
    obind (read_byte d) fun _ d =>
    obind (read_int d) fun _ d =>
    obind (read_int d) fun pc d =>
    read_points pc.toNat d) d) fun d =>
  sbind (skipIf (flags1 &&& 0x40 ≠ 0) (read_skip 2) d) fun d =>
  sbind (skipIf (flags2 &&& 0x02 ≠ 0) (read_skip 1) d) fun d =>
  some d

/-- `GP5Analyzer.read_chord`: discriminator byte, then either the old format
(name block plus optional 6 fret ints) or the new GP5 format field list
(sharp bool, 3 skipped bytes, root/type/extension bytes, bass and tonality
ints, add bool, 21-byte padded name, 3 alteration bytes, base-fret int,
7 fret bytes, 16 barre bytes, 7 omission bools, 1 skipped byte, 7 fingering
bytes, show-fingering bool). -/
def read_chord (d : List Nat) : Option (List Nat) :=
  obind (read_byte d) fun newFormat d =>
  if newFormat = 0 then
    obind (read_int_byte_size_string d) fun _ d =>
    obind (read_int d) fun firstFret d =>
    if firstFret > 0 then
      sbind (read_skip 4 d) fun d => sbind (read_skip 4 d) fun d =>
      sbind (read_skip 4 d) fun d => sbind (read_skip 4 d) fun d =>
      sbind (read_skip 4 d) fun d => read_skip 4 d
    else
      some d
  else
    obind (read_bool d) fun _ d =>
    sbind (some (d.drop 3)) fun d =>
    sbind (read_skip 3 d) fun d =>
    obind (read_int d) fun _ d =>
    obind (read_int d) fun _ d =>
    obind (read_bool d) fun _ d =>
    obind (read_byte_size_string 21 d) fun _ d =>
    sbind (read_skip 3 d) fun d =>
    obind (read_int d) fun _ d =>
    sbind (read_skip 7 d) fun d =>
    sbind (read_skip 16 d) fun d =>
    sbind (read_skip 7 d) fun d =>
    sbind (some (d.drop 1)) fun d =>
    sbind (read_skip 7 d) fun d =>
    obind (read_bool d) fun _ d =>
    some d

/-- `GP5Analyzer.read_mix_table`: instrument, RSE ints, version-dependent
effect field, six signed parameter deltas, tempo name and int, one
transition-duration byte per nonnegative parameter, flags byte, the
version-gated wah byte and two RSE effect-name strings. -/
def read_mix_table (v : Version) (d : List Nat) : Option (List Nat) :=
  obind (read_sbyte d) fun _ d =>
  obind (read_int d) fun _ d =>
  obind (read_int d) fun _ d =>
  obind (read_int d) fun _ d =>
  sbind (if v = (5, 0, 0) then
      obind (read_short d) fun _ d => some (d.drop 1)
    else
      obind (read_int d) fun _ d => some d) fun d =>
  obind (read_sbyte d) fun volume d =>
  obind (read_sbyte d) fun balance d =>
  obind (read_sbyte d) fun chorus d =>
  obind (read_sbyte d) fun reverb d =>
  obind (read_sbyte d) fun phaser d =>
  obind (read_sbyte d) fun tremolo d =>
  obind (read_int_byte_size_string d) fun _ d =>
  obind (read_int d) fun tempo d =>
  sbind (skipIf (volume ≥ 0) (read_skip 1) d) fun d =>
  sbind (skipIf (balance ≥ 0) (read_skip 1) d) fun d =>
  sbind (skipIf (chorus ≥ 0) (read_skip 1) d) fun d =>
  sbind (skipIf (reverb ≥ 0) (read_skip 1) d) fun d =>
  sbind (skipIf (phaser ≥ 0) (read_skip 1) d) fun d =>
  sbind (skipIf (tremolo ≥ 0) (read_skip 1) d) fun d =>
  sbind (skipIf (tempo ≥ 0) (fun d =>
    obind (read_byte d) fun _ d =>
    skipIf (vge v (5, 1, 0)) (read_skip 1) d) d) fun d =>
  obind (read_byte d) fun _ d =>
  sbind (skipIf (vge v (5, 1, 0)) (read_skip 1) d) fun d =>
  obind (read_int_byte_size_string d) fun _ d =>
  obind (read_int_byte_size_string d) fun _ d =>
  some d

/-- The note dictionary built by `GP5Analyzer.read_note` (plus the `string`
key added by `read_beat`); `fret` defaults to `0` and is overwritten only
when bit5 of the flags byte is set. -/
structure Note where
  flags : Nat
  ntype : Option Nat
  velocity : Option Int
  fret : Int
  nflags2 : Nat
  string : Nat
deriving DecidableEq

/-- The beat dictionary built by `GP5Analyzer.read_beat`.  Chord, beat-effect
and mix-table payloads are consumed but not stored, exactly as in the source. -/
structure Beat where
  flags : Nat
  status : Option Nat
  duration : Int
  tuplet : Option Int
  text : Option (List Nat)
  stringFlags : Nat
  notes : List Note
  bflags2 : Int
deriving DecidableEq

/-- Python's `flags2 & 0x0800` on the signed short `flags2`: a two's-complement
bit test, i.e. a test on `flags2 mod 2^16`. -/
def short_bit (i : Int) (mask : Nat) : Bool := ((i % 65536).toNat &&& mask) ≠ 0

/-- `GP5Analyzer.read_note`: flags byte; type byte (bit5), signed velocity
(bit4), signed fret (bit5 again), 2 fingering bytes (bit7), 8 skipped
duration-percent bytes (bit0), the always-present flags2 byte, and the
note-effects block (bit3).  The `string` field is filled in by the caller. -/
def read_note (d : List Nat) : Option (Note × List Nat) :=
  obind (read_byte d) fun flags d =>
  obind (readIf (flags &&& 0x20 ≠ 0) read_byte d) fun ntype d =>
  obind (readIf (flags &&& 0x10 ≠ 0) read_sbyte d) fun velocity d =>
  obind (readIf (flags &&& 0x20 ≠ 0) read_sbyte d) fun fret d =>
  sbind (skipIf (flags &&& 0x80 ≠ 0) (read_skip 2) d) fun d =>
  sbind (some (if flags &&& 0x01 ≠ 0 then d.drop 8 else d)) fun d =>
  obind (read_byte d) fun nflags2 d =>
  sbind (skipIf (flags &&& 0x08 ≠ 0) read_note_effects d) fun d =>
  some ({ flags := flags, ntype := ntype, velocity := velocity,
          fret := fret.getD 0, nflags2 := nflags2, string := 0 }, d)

/-- The note loop of `GP5Analyzer.read_beat`: for `s` from 6 down to 0, when
bit `s` of the string-presence byte is set, one note is read and labelled
`string = 6 - s`. -/
def read_notes (stringFlags : Nat) : List Nat → List Nat → Option (List Note × List Nat)
  | [], d => some ([], d)
  | s :: ss, d =>
    if stringFlags &&& (1 <<< s) ≠ 0 then
      obind (read_note d) fun note d =>
      obind (read_notes stringFlags ss d) fun rest d =>
      some ({ note with string := 6 - s } :: rest, d)
    else
      read_notes stringFlags ss d

/-- `GP5Analyzer.read_beat`: flags byte; status byte (bit6); signed duration
byte (always); tuplet int (bit5); chord (bit1); text block (bit2);
beat effects (bit3); mix table (bit4); string-presence byte and the note
loop (always); trailing flags2 short (always); one extra byte when bit 11
(`0x0800`) of flags2 is set. -/
def read_beat (v : Version) (d : List Nat) : Option (Beat × List Nat) :=
  obind (read_byte d) fun flags d =>
  obind (readIf (flags &&& 0x40 ≠ 0) read_byte d) fun status d =>
  obind (read_sbyte d) fun duration d =>
  obind (readIf (flags &&& 0x20 ≠ 0) read_int d) fun tuplet d =>
  sbind (skipIf (flags &&& 0x02 ≠ 0) read_chord d) fun d =>
  obind (readIf (flags &&& 0x04 ≠ 0) read_int_byte_size_string d) fun text d =>
  sbind (skipIf (flags &&& 0x08 ≠ 0) read_beat_effects d) fun d =>
  sbind (skipIf (flags &&& 0x10 ≠ 0) (read_mix_table v) d) fun d =>
  obind (read_byte d) fun stringFlags d =>
  obind (read_notes stringFlags [6, 5, 4, 3, 2, 1, 0] d) fun notes d =>
  obind (read_short d) fun bflags2 d =>
  sbind (skipIf (short_bit bflags2 0x0800 = true) (read_skip 1) d) fun d =>
  some ({ flags := flags, status := status, duration := duration,
          tuplet := tuplet, text := text, stringFlags := stringFlags,
          notes := notes, bflags2 := bflags2 }, d)

/-- The beat loop of `GP5Analyzer.read_voice`. -/
def read_beats (v : Version) : Nat → List Nat → Option (List Beat × List Nat)
  | 0, d => some ([], d)
  | n + 1, d =>
    obind (read_beat v d) fun beat d =>
    obind (read_beats v n d) fun rest d =>
    some (beat :: rest, d)

/-- `GP5Analyzer.read_voice`: a beat-count int; a count outside `[0, 128]`
yields no beats (with a warning) while decoding continues after the count;
otherwise exactly `count` beats are read. -/
def read_voice (v : Version) (d : List Nat) : Option (List Beat × List Nat) :=
  obind (read_int d) fun beatCount d =>
  if beatCount < 0 ∨ beatCount > 128 then
    some ([], d)
  else
    read_beats v beatCount.toNat d

/-- `GP5Analyzer.read_measure`: one measure of one track — voice 1, voice 2,
then a line-break byte that is consumed and discarded. -/
def read_measure (v : Version) (d : List Nat) :
    Option ((List Beat × List Beat) × List Nat) :=
  obind (read_voice v d) fun voice1 d =>
  obind (read_voice v d) fun voice2 d =>
  obind (read_byte d) fun _ d =>
  some ((voice1, voice2), d)

/-- The measure-header dictionary built by `GP5Analyzer.read_measure_headers`
(key-signature, repeat-alternative, beam, placeholder and triplet-feel bytes
are consumed but not stored, exactly as in the source). -/
structure MeasureHeader where
  flags : Nat
  numerator : Option Nat
  denominator : Option Nat
  repeatOpen : Bool
  repeatClose : Option Nat
  marker : Option (List Nat)
  doubleBar : Bool
deriving DecidableEq

/-- The marker field of a measure header: a length-prefixed block then a
4-byte color int. -/
def read_marker (d : List Nat) : Option (List Nat × List Nat) :=
  obind (read_int_byte_size_string d) fun name d =>
  obind (read_int d) fun _ d =>
  some (name, d)

/-- The loop body of `GP5Analyzer.read_measure_headers` (one header, without
the inter-header placeholder byte): the flags byte gates numerator (bit0),
denominator (bit1), repeat-open (bit2, no payload), repeat-close count
(bit3), marker (bit5), key signature (bit6), repeat-alternative (bit4),
double-bar (bit7, no payload), in that source order; then 4 beam bytes when
bit0 or bit1 is set, a placeholder byte when bit4 is clear, and the
triplet-feel byte. -/
def read_measure_header (d : List Nat) : Option (MeasureHeader × List Nat) :=
  obind (read_byte d) fun flags d =>
  obind (readIf (flags &&& 0x01 ≠ 0) read_byte d) fun numerator d =>
  obind (readIf (flags &&& 0x02 ≠ 0) read_byte d) fun denominator d =>
  obind (readIf (flags &&& 0x08 ≠ 0) read_byte d) fun repeatClose d =>
  obind (readIf (flags &&& 0x20 ≠ 0) read_marker d) fun marker d =>
  sbind (skipIf (flags &&& 0x40 ≠ 0) (read_skip 2) d) fun d =>
  sbind (skipIf (flags &&& 0x10 ≠ 0) (read_skip 1) d) fun d =>
  sbind (skipIf (flags &&& 0x03 ≠ 0) (read_skip 4) d) fun d =>
  sbind (some (if flags &&& 0x10 = 0 then d.drop 1 else d)) fun d =>
  obind (read_byte d) fun _ d =>
  some ({ flags := flags,
          numerator := numerator, denominator := denominator,
          repeatOpen := flags &&& 0x04 ≠ 0, repeatClose := repeatClose,
          marker := marker, doubleBar := flags &&& 0x80 ≠ 0 }, d)

/-- The measure-header layout exactly as the specification sentence orders it:
optional fields strictly by ascending bit position, so the
repeat-alternative byte (bit4) is read BEFORE the marker (bit5) and the key
signature (bit6).  Kept only to compare with the source order. -/
def read_measure_header_claimed (d : List Nat) : Option (MeasureHeader × List Nat) :=
  obind (read_byte d) fun flags d =>
  obind (readIf (flags &&& 0x01 ≠ 0) read_byte d) fun numerator d =>
  obind (readIf (flags &&& 0x02 ≠ 0) read_byte d) fun denominator d =>
  obind (readIf (flags &&& 0x08 ≠ 0) read_byte d) fun repeatClose d =>
  sbind (skipIf (flags &&& 0x10 ≠ 0) (read_skip 1) d) fun d =>
  obind (readIf (flags &&& 0x20 ≠ 0) read_marker d) fun marker d =>
  sbind (skipIf (flags &&& 0x40 ≠ 0) (read_skip 2) d) fun d =>
  sbind (skipIf (flags &&& 0x03 ≠ 0) (read_skip 4) d) fun d =>
  sbind (some (if flags &&& 0x10 = 0 then d.drop 1 else d)) fun d =>
  obind (read_byte d) fun _ d =>
  some ({ flags := flags,
          numerator := numerator, denominator := denominator,
          repeatOpen := flags &&& 0x04 ≠ 0, repeatClose := repeatClose,
          marker := marker, doubleBar := flags &&& 0x80 ≠ 0 }, d)

/-- Binary digit sum with explicit fuel (one division by two per step); the
fuel `n + 1` always suffices since `n < 2 ^ (n + 1)`. -/
def popcount_go : Nat → Nat → Nat
  | 0, _ => 0
  | f + 1, n => n % 2 + popcount_go f (n / 2)

/-- Number of set bits (the `bin(x).count('1')` used by the trace scripts). -/
def popcount (n : Nat) : Nat := popcount_go (n + 1) n

/-- The string labels `6 - s` produced by the note loop, for the set bits of
the string-presence byte, iterated from bit 6 down to bit 0. -/
def mask_strings (mask : Nat) : List Nat :=
  [6, 5, 4, 3, 2, 1, 0].filterMap fun s =>
    if mask &&& (1 <<< s) ≠ 0 then some (6 - s) else none

section Encoder

/-!
Modelled from the spec: the GP5 *encoder* is not part of `src/` (the
repository only decodes; `test_roundtrip.py` delegates writing to the
external PyGuitarPro library).  The following writers are modelled from
§4.1/§4.5 of the specification and its conditional-field-symmetry property
("encoding must write the field iff decoding would read it for that flag
value"), over the fields the repository's decoder STORES.  The decoder
consumes but discards the chord (beat bit1), beat-effect (beat bit3),
mix-table (beat bit4), fingering (note bit7), duration-percent (note bit0)
and note-effect (note bit3) payloads while keeping the raw flags byte, so a
decoded tree whose flags request one of those fields holds no data to write
back: no encoder built from the decoded tree can satisfy the spec's
symmetry for those bits.  These writers emit the flags byte verbatim and no
payload there; `claim1_counterexample` exhibits the resulting round-trip
failure for each of the six bits, and the amended C1 therefore excludes
them.
-/

/-- Modelled from the spec: little-endian 4-byte encoding of a nonnegative
machine word (§4.1, "all integers are little-endian"). -/
def enc32 (u : Nat) : List Nat :=
  [u % 256, u / 256 % 256, u / 65536 % 256, u / 16777216 % 256]

/-- Modelled from the spec: two's-complement byte of a signed value. -/
def enc_sbyte (i : Int) : Nat := (i % 256).toNat

/-- Modelled from the spec: little-endian signed 16-bit encoding. -/
def enc_short (i : Int) : List Nat :=
  [(i % 65536).toNat % 256, (i % 65536).toNat / 256]

/-- Modelled from the spec: little-endian signed 32-bit encoding. -/
def enc_int (i : Int) : List Nat := enc32 (i % 4294967296).toNat

/-- Modelled from the spec: the int-byte-size block whose 4-byte size field
equals `1 + contentLength` (§4.1). -/
def enc_ibss (s : List Nat) : List Nat := enc32 (1 + s.length) ++ [s.length] ++ s

/-- Modelled from the spec: note writer (§4.5 field order, conditional on the
stored flags byte).  The fingering (bit7), duration-percent (bit0) and
note-effects (bit3) payloads are not stored by the decoder and are not
written; for a note requesting them the writer is not symmetric (see the
module comment above and `claim1_counterexample`). -/
def encode_note (n : Note) : List Nat :=
  n.flags :: ((if n.flags &&& 0x20 ≠ 0 then [n.ntype.getD 0] else [])
    ++ (if n.flags &&& 0x10 ≠ 0 then [enc_sbyte (n.velocity.getD 0)] else [])
    ++ (if n.flags &&& 0x20 ≠ 0 then [enc_sbyte n.fret] else [])
    ++ [n.nflags2])

/-- Modelled from the spec: beat writer (§4.5 field order; the extra byte
behind bit 11 of flags2 is written as zero).  The chord (bit1), beat-effect
(bit3) and mix-table (bit4) payloads are not stored by the decoder and are
not written; for a beat requesting them the writer is not symmetric (see
the module comment above and `claim1_counterexample`). -/
def encode_beat (b : Beat) : List Nat :=
  b.flags :: ((if b.flags &&& 0x40 ≠ 0 then [b.status.getD 0] else [])
    ++ [enc_sbyte b.duration]
    ++ (if b.flags &&& 0x20 ≠ 0 then enc_int (b.tuplet.getD 0) else [])
    ++ (if b.flags &&& 0x04 ≠ 0 then enc_ibss (b.text.getD []) else [])
    ++ [b.stringFlags]
    ++ (b.notes.map encode_note).flatten
    ++ enc_short b.bflags2
    ++ (if short_bit b.bflags2 0x0800 then [0] else []))

/-- Modelled from the spec: voice writer — beat-count int, then the beats. -/
def encode_voice (bs : List Beat) : List Nat :=
  enc32 bs.length ++ (bs.map encode_beat).flatten

/-- Modelled from the spec: measure writer — voice 1, voice 2 (an empty
voice 2 is written as a zero-length list, §3), then the line-break byte,
written as zero since the decoder discards it. -/
def encode_measure (bs1 bs2 : List Beat) : List Nat :=
  encode_voice bs1 ++ encode_voice bs2 ++ [0]

/-- Notes the decoder can reproduce from what it stores: none of the
discarded payloads (fingering bit7, duration-percent bit0, note-effects
bit3) is requested by the flags, the stored optionals match their gate bits,
and the signed fields are in byte range (`fret` keeps its default 0 when
bit5 is clear, as in the source). -/
def WFNote (n : Note) : Prop :=
  n.flags &&& 0x80 = 0 ∧ n.flags &&& 0x01 = 0 ∧ n.flags &&& 0x08 = 0 ∧
  (n.ntype.isSome ↔ n.flags &&& 0x20 ≠ 0) ∧
  (n.velocity.isSome ↔ n.flags &&& 0x10 ≠ 0) ∧
  (∀ x ∈ n.velocity, -128 ≤ x ∧ x < 128) ∧
  -128 ≤ n.fret ∧ n.fret < 128 ∧
  (n.flags &&& 0x20 = 0 → n.fret = 0)

/-- Beats the decoder can reproduce from what it stores: no discarded
payloads (chord bit1, beat-effects bit3, mix-table bit4), stored optionals
matching their gate bits, ranges fitting the signed encodings, and a note
list aligned with the string-presence byte. -/
def WFBeat (b : Beat) : Prop :=
  b.flags &&& 0x02 = 0 ∧ b.flags &&& 0x08 = 0 ∧ b.flags &&& 0x10 = 0 ∧
  (b.status.isSome ↔ b.flags &&& 0x40 ≠ 0) ∧
  -128 ≤ b.duration ∧ b.duration < 128 ∧
  (b.tuplet.isSome ↔ b.flags &&& 0x20 ≠ 0) ∧
  (∀ x ∈ b.tuplet, -2147483648 ≤ x ∧ x < 2147483648) ∧
  (b.text.isSome ↔ b.flags &&& 0x04 ≠ 0) ∧
  (∀ s ∈ b.text, s.length ≤ 255) ∧
  -32768 ≤ b.bflags2 ∧ b.bflags2 < 32768 ∧
  b.notes.map Note.string = mask_strings b.stringFlags ∧
  (∀ n ∈ b.notes, WFNote n)

instance (n : Note) : Decidable (WFNote n) := by
  unfold WFNote
  infer_instance

instance (b : Beat) : Decidable (WFBeat b) := by
  unfold WFBeat
  infer_instance

end Encoder

@[simp] theorem read_byte_cons (b : Nat) (d : List Nat) :
    read_byte (b :: d) = some (b, d) := rfl

@[simp] theorem read_byte_nil : read_byte [] = none := rfl

@[simp] theorem read_sbyte_cons (b : Nat) (d : List Nat) :
    read_sbyte (b :: d) = some (sint8 b, d) := rfl

@[simp] theorem read_short_cons (b0 b1 : Nat) (d : List Nat) :
    read_short (b0 :: b1 :: d) = some (sint16 (b0 + 256 * b1), d) := rfl

@[simp] theorem read_int_cons (b0 b1 b2 b3 : Nat) (d : List Nat) :
    read_int (b0 :: b1 :: b2 :: b3 :: d) =
      some (sint32 (b0 + 256 * b1 + 65536 * b2 + 16777216 * b3), d) := rfl

@[simp] theorem read_bool_cons (b : Nat) (d : List Nat) :
    read_bool (b :: d) = some (decide (b ≠ 0), d) := rfl

@[simp] theorem obind_some (a : α) (d : List Nat) (f : α → List Nat → Option β) :
    obind (some (a, d)) f = f a d := rfl

@[simp] theorem obind_none (f : α → List Nat → Option β) :
    obind none f = none := rfl

@[simp] theorem sbind_some (d : List Nat) (f : List Nat → Option β) :
    sbind (some d) f = f d := rfl

@[simp] theorem sbind_none (f : List Nat → Option β) :
    sbind none f = none := rfl

theorem readIf_pos (c : Prop) [Decidable c] (h : c)
    (rd : List Nat → Option (α × List Nat)) (d : List Nat) :
    readIf c rd d = obind (rd d) (fun a d => some (some a, d)) := by
  simp [readIf, h]

theorem readIf_neg (c : Prop) [Decidable c] (h : ¬c)
    (rd : List Nat → Option (α × List Nat)) (d : List Nat) :
    readIf c rd d = some (none, d) := by
  simp [readIf, h]

theorem skipIf_pos (c : Prop) [Decidable c] (h : c)
    (k : List Nat → Option (List Nat)) (d : List Nat) :
    skipIf c k d = k d := by
  simp [skipIf, h]

theorem skipIf_neg (c : Prop) [Decidable c] (h : ¬c)
    (k : List Nat → Option (List Nat)) (d : List Nat) :
    skipIf c k d = some d := by
  simp [skipIf, h]

@[simp] theorem read_skip_zero (d : List Nat) : read_skip 0 d = some d := rfl

@[simp] theorem read_skip_succ_cons (n b : Nat) (d : List Nat) :
    read_skip (n + 1) (b :: d) = read_skip n d := rfl

/-- Reading back a 4-byte little-endian block of a value below `2^31`. -/
theorem read_int_enc32 (u : Nat) (h : u < 2147483648) (r : List Nat) :
    read_int (enc32 u ++ r) = some ((u : Int), r) := by
  simp only [enc32, List.cons_append, List.nil_append, read_int_cons, sint32]
  have h1 : u % 256 + 256 * (u / 256 % 256) + 65536 * (u / 65536 % 256) +
      16777216 * (u / 16777216 % 256) = u := by omega
  rw [h1]
  have h2 : u % 4294967296 = u := by omega
  rw [h2]
  simp only [if_pos h]

/-- Reading back the int-byte-size block of a short content list. -/
theorem read_ibss_enc (nm : List Nat) (h : nm.length ≤ 255) (r : List Nat) :
    read_int_byte_size_string (enc_ibss nm ++ r) = some (nm, r) := by
  have h31 : 1 + nm.length < 2147483648 := by omega
  simp only [enc_ibss, List.append_assoc]
  rw [read_int_byte_size_string, read_int_enc32 _ h31]
  have hpos : ¬ ((1 + nm.length : Nat) : Int) ≤ 0 := by omega
  simp only [obind_some, if_neg hpos, List.cons_append, read_byte_cons]
  have htn : (((1 + nm.length : Nat) : Int) - 1).toNat = nm.length := by omega
  rw [htn]
  simp [List.take_left, List.drop_left]

/-- Consuming a list of known length byte by byte. -/
theorem read_skip_append (bs r : List Nat) :
    read_skip bs.length (bs ++ r) = some r := by
  induction bs with
  | nil => rfl
  | cons b bs ih => simpa using ih

/-- Inverting one value-producing step of a decoder chain. -/
theorem obind_eq_some {α β : Type} {x : Option (α × List Nat)}
    {f : α → List Nat → Option β} {y : β} :
    obind x f = some y ↔ ∃ a d, x = some (a, d) ∧ f a d = some y := by
  cases x with
  | none => simp [obind]
  | some p =>
    cases p with
    | mk a d =>
      simp only [obind, Option.some.injEq, Prod.mk.injEq]
      constructor
      · intro h
        exact ⟨a, d, ⟨rfl, rfl⟩, h⟩
      · rintro ⟨a1, d1, ⟨rfl, rfl⟩, h⟩
        exact h

/-- Inverting one consume-only step of a decoder chain. -/
theorem sbind_eq_some {β : Type} {x : Option (List Nat)}
    {f : List Nat → Option β} {y : β} :
    sbind x f = some y ↔ ∃ d, x = some d ∧ f d = some y := by
  cases x with
  | none => simp [sbind]
  | some d =>
    simp only [sbind, Option.some.injEq]
    constructor
    · intro h
      exact ⟨d, rfl, h⟩
    · rintro ⟨d1, rfl, h⟩
      exact h

/-- Only the low 7 bits of the string-presence byte matter to the note loop. -/
theorem mask_strings_low7 (mask : Nat) :
    mask_strings mask = mask_strings (mask &&& 127) := by
  unfold mask_strings
  apply List.filterMap_congr
  intro s hs
  have hlow : mask &&& 127 &&& (1 <<< s) = mask &&& (1 <<< s) := by
    rw [Nat.land_assoc]
    congr 1
    simp only [List.mem_cons, List.not_mem_nil, or_false] at hs
    rcases hs with rfl | rfl | rfl | rfl | rfl | rfl | rfl <;> decide
  rw [hlow]

set_option maxRecDepth 4000 in
/-- The note loop produces one string label per set low bit of the mask. -/
theorem mask_strings_length (mask : Nat) :
    (mask_strings mask).length = popcount (mask &&& 127) := by
  rw [mask_strings_low7]
  have hlt : mask &&& 127 < 128 := by
    have h := @Nat.and_le_right mask 127
    omega
  revert hlt
  generalize mask &&& 127 = m
  revert m
  decide

/-- The string labels a successful run of the note loop attaches to its
notes, for any suffix of the bit list. -/
theorem read_notes_spec (mask : Nat) (ss : List Nat) :
    ∀ d res r, read_notes mask ss d = some (res, r) →
      res.map Note.string =
        ss.filterMap (fun s => if mask &&& (1 <<< s) ≠ 0 then some (6 - s) else none) := by
  induction ss with
  | nil =>
    intro d res r h
    simp only [read_notes, Option.some.injEq, Prod.mk.injEq] at h
    simp [← h.1]
  | cons s ss ih =>
    intro d res r h
    rw [read_notes] at h
    by_cases hbit : mask &&& (1 <<< s) ≠ 0
    · rw [if_pos hbit] at h
      obtain ⟨note, d1, hn, h⟩ := obind_eq_some.mp h
      obtain ⟨rest, d2, hr, h⟩ := obind_eq_some.mp h
      simp only [Option.some.injEq, Prod.mk.injEq] at h
      obtain ⟨hres, -⟩ := h
      rw [← hres]
      simp only [List.map_cons, List.filterMap_cons, if_pos hbit]
      exact congrArg (List.cons (6 - s)) (ih d1 rest d2 hr)
    · rw [if_neg hbit] at h
      simp only [List.filterMap_cons, if_neg hbit]
      exact ih d res r h

set_option maxRecDepth 4000 in
/-- C9, the claim as stated is false on two counts: on the beat
`flags 0x00, duration 0, string-presence byte 0xC0` followed by one empty
note and the flags2 short, the decoder produces 1 note although
`popcount(0xC0) = 2` (bit 7 of the byte is never examined), and it labels
that note `string = 0`, not a string in 1..7. -/
theorem claim9_counterexample :
    read_beat (5, 0, 0) [0x00, 0x00, 0xC0, 0x00, 0x00, 0x00, 0x00] =
      some ({ flags := 0, status := none, duration := 0, tuplet := none, text := none,
              stringFlags := 0xC0,
              notes := [{ flags := 0, ntype := none, velocity := none, fret := 0,
                          nflags2 := 0, string := 0 }],
              bflags2 := 0 }, []) ∧
    popcount 0xC0 = 2 := by
  exact ⟨by decide, by decide⟩

/-- C9 amended: for every successfully decoded beat, the number of notes
equals the popcount of the LOW SEVEN bits of its string-presence byte
(bit 7 is ignored), with one note per set bit iterated from bit 6 down to
bit 0 and labelled `string = 6 - bit` (strings 0 through 6 in the decoder's
numbering). -/
theorem claim9_note_count (v : Version) (d : List Nat) (b : Beat) (r : List Nat)
    (h : read_beat v d = some (b, r)) :
    b.notes.length = popcount (b.stringFlags &&& 127) ∧
    b.notes.map Note.string = mask_strings b.stringFlags := by
  rw [read_beat] at h
  obtain ⟨flags, d1, -, h⟩ := obind_eq_some.mp h
  obtain ⟨status, d2, -, h⟩ := obind_eq_some.mp h
  obtain ⟨dur, d3, -, h⟩ := obind_eq_some.mp h
  obtain ⟨tup, d4, -, h⟩ := obind_eq_some.mp h
  obtain ⟨d5, -, h⟩ := sbind_eq_some.mp h
  obtain ⟨text, d6, -, h⟩ := obind_eq_some.mp h
  obtain ⟨d7, -, h⟩ := sbind_eq_some.mp h
  obtain ⟨d8, -, h⟩ := sbind_eq_some.mp h
  obtain ⟨mask, d9, -, h⟩ := obind_eq_some.mp h
  obtain ⟨notes, d10, hnotes, h⟩ := obind_eq_some.mp h
  obtain ⟨f2, d11, -, h⟩ := obind_eq_some.mp h
  obtain ⟨d12, -, h⟩ := sbind_eq_some.mp h
  simp only [Option.some.injEq, Prod.mk.injEq] at h
  obtain ⟨hb, -⟩ := h
  subst hb
  have hmap := read_notes_spec mask [6, 5, 4, 3, 2, 1, 0] d9 notes d10 hnotes
  refine ⟨?_, hmap⟩
  have hlen : notes.length = (notes.map Note.string).length := by
    simp
  rw [hlen, hmap]
  exact mask_strings_length mask

set_option maxRecDepth 4000 in
/-- Witness for C9 amended: a beat with string mask 0x22 (bits 5 and 1)
decodes to two notes labelled strings 1 and 5. -/
theorem claim9_witness :
    read_beat (5, 0, 0) [0x00, 0x00, 0x22, 0x00, 0x00, 0x00, 0x00, 0x00, 0x00] =
      some ({ flags := 0, status := none, duration := 0, tuplet := none, text := none,
              stringFlags := 0x22,
              notes := [{ flags := 0, ntype := none, velocity := none, fret := 0,
                          nflags2 := 0, string := 1 },
                        { flags := 0, ntype := none, velocity := none, fret := 0,
                          nflags2 := 0, string := 5 }],
              bflags2 := 0 }, []) ∧
    (2 = popcount (0x22 &&& 127) ∧ [1, 5] = mask_strings 0x22) := by
  constructor
  · decide
  · have h := claim9_note_count (5, 0, 0)
      [0x00, 0x00, 0x22, 0x00, 0x00, 0x00, 0x00, 0x00, 0x00]
      ({ flags := 0, status := none, duration := 0, tuplet := none, text := none,
         stringFlags := 0x22,
         notes := [{ flags := 0, ntype := none, velocity := none, fret := 0,
                     nflags2 := 0, string := 1 },
                   { flags := 0, ntype := none, velocity := none, fret := 0,
                     nflags2 := 0, string := 5 }],
         bflags2 := 0 }) [] (by decide)
    exact ⟨h.1, h.2⟩

/-- C2: decoding the beat `flags 0x00, duration 0x00, string mask 0x40, note
flags 0x30, type 1, velocity 6, fret 5, note-flags2 0, beat-flags2 0x0000`
yields exactly one note with `fret = 5` and `velocity = 6` — the type byte is
read first, then the velocity byte (bit4), then the fret byte under the same
bit5 as the type — but the decoder labels it `string = 0` (its note loop sets
`string_num = 6 - s`, numbering strings 0..6), not `string = 1` as the claim
and the repository's other tracers (`trace_gp5_correct.py`,
`compare_bytes.py`) number them. -/
theorem claim2_note_decode :
    read_beat (5, 0, 0) [0x00, 0x00, 0x40, 0x30, 0x01, 0x06, 0x05, 0x00, 0x00, 0x00] =
      some ({ flags := 0, status := none, duration := 0, tuplet := none, text := none,
              stringFlags := 0x40,
              notes := [{ flags := 0x30, ntype := some 1, velocity := some 6, fret := 5,
                          nflags2 := 0, string := 0 }],
              bflags2 := 0 }, []) := by
  decide

/-- C3: with the grace bit (bit4, mask 0x10) set in the first effect-flags
byte the note-effect decoder consumes exactly 5 payload bytes — 7 in total
with the two flag bytes — for any values of the 5 grace bytes; with both
flag bytes clear it consumes exactly the 2 flag bytes. -/
theorem claim3_grace_five_bytes (g1 g2 g3 g4 g5 : Nat) (r r2 : List Nat) :
    read_note_effects (0x10 :: 0x00 :: g1 :: g2 :: g3 :: g4 :: g5 :: r) = some r ∧
    read_note_effects (0x00 :: 0x00 :: r2) = some r2 := by
  constructor
  · simp [read_note_effects, skipIf]
  · simp [read_note_effects, skipIf]

/-- C4: the int-byte-size string reader, on a 4-byte size field decoding to
`S`: when `S ≤ 0` it returns the empty string consuming only the 4 size
bytes (no length byte, no content); when `S > 0` it reads the 1-byte length
`L` and skips `S - 1` content bytes, returning the first `L` bytes after the
length byte — the cursor advances `4 + 1 + (S - 1) = 4 + S` bytes in total. -/
theorem claim4_int_byte_size_string (b0 b1 b2 b3 L : Nat) (cont r : List Nat) :
    (sint32 (b0 + 256 * b1 + 65536 * b2 + 16777216 * b3) ≤ 0 →
      read_int_byte_size_string (b0 :: b1 :: b2 :: b3 :: r) = some ([], r)) ∧
    (0 < sint32 (b0 + 256 * b1 + 65536 * b2 + 16777216 * b3) →
      (cont.length : Int) = sint32 (b0 + 256 * b1 + 65536 * b2 + 16777216 * b3) - 1 →
      read_int_byte_size_string (b0 :: b1 :: b2 :: b3 :: L :: (cont ++ r)) =
        some ((cont ++ r).take L, r)) := by
  constructor
  · intro hS
    simp only [read_int_byte_size_string, read_int_cons, obind_some]
    rw [if_pos hS]
  · intro hS hlen
    simp only [read_int_byte_size_string, read_int_cons, obind_some]
    rw [if_neg (by omega)]
    simp only [read_byte_cons, obind_some]
    have h1 : (sint32 (b0 + 256 * b1 + 65536 * b2 + 16777216 * b3) - 1).toNat =
        cont.length := by omega
    rw [h1, List.drop_left]

/-- Witness for C4: size 3 (field `03 00 00 00`), length 2, content `41 42`,
and a size-0 block, evaluated concretely. -/
theorem claim4_witness :
    read_int_byte_size_string [3, 0, 0, 0, 2, 65, 66, 9] = some ([65, 66], [9]) ∧
    read_int_byte_size_string [0, 0, 0, 0, 9, 9] = some ([], [9, 9]) := by
  constructor
  · have h := (claim4_int_byte_size_string 3 0 0 0 2 [65, 66] [9]).2
      (by decide) (by decide)
    simpa using h
  · exact (claim4_int_byte_size_string 0 0 0 0 0 [] [9, 9]).1 (by decide)

/-- C6: `read_voice` first reads the beat-count int; a count outside
`[0, 128]` produces no beats for the voice while decoding continues right
after the 4 count bytes (the caller can recover), and a count inside the
range makes the decoder read exactly that many beats. -/
theorem claim6_beat_count (v : Version) (b0 b1 b2 b3 : Nat) (r : List Nat) :
    (sint32 (b0 + 256 * b1 + 65536 * b2 + 16777216 * b3) < 0 ∨
        sint32 (b0 + 256 * b1 + 65536 * b2 + 16777216 * b3) > 128 →
      read_voice v (b0 :: b1 :: b2 :: b3 :: r) = some ([], r)) ∧
    (¬(sint32 (b0 + 256 * b1 + 65536 * b2 + 16777216 * b3) < 0 ∨
        sint32 (b0 + 256 * b1 + 65536 * b2 + 16777216 * b3) > 128) →
      read_voice v (b0 :: b1 :: b2 :: b3 :: r) =
        read_beats v (sint32 (b0 + 256 * b1 + 65536 * b2 + 16777216 * b3)).toNat r) := by
  constructor
  · intro h
    simp only [read_voice, read_int_cons, obind_some]
    rw [if_pos h]
  · intro h
    simp only [read_voice, read_int_cons, obind_some]
    rw [if_neg h]

/-- Witness for C6: count 200 (`c8 00 00 00`) yields no beats and resumes
right after the count; count 0 reads zero beats. -/
theorem claim6_witness :
    read_voice (5, 0, 0) [200, 0, 0, 0, 7, 7] = some ([], [7, 7]) ∧
    read_voice (5, 0, 0) [0, 0, 0, 0] = some ([], []) := by
  constructor
  · exact (claim6_beat_count (5, 0, 0) 200 0 0 0 [7, 7]).1 (by decide)
  · have h := (claim6_beat_count (5, 0, 0) 0 0 0 0 []).2 (by decide)
    simpa using h

/-- C8: the RSE master-effect block (an int, an int, 11 signed bytes and a
byte — 20 bytes) and the hide-tempo bool are consumed exactly when the
version tuple is lexicographically greater than `(5, 0, 0)`; otherwise the
stream is untouched. -/
theorem claim8_rse_version_gate (v : Version) (m1 m2 m3 m4 u1 u2 u3 u4 g hb : Nat)
    (eq r d : List Nat) :
    (vgt v (5, 0, 0) = true → eq.length = 11 →
      read_rse_master_effect v
          (m1 :: m2 :: m3 :: m4 :: u1 :: u2 :: u3 :: u4 :: (eq ++ g :: r)) = some r) ∧
    (vgt v (5, 0, 0) = true → read_hide_tempo v (hb :: r) = some r) ∧
    (vgt v (5, 0, 0) = false → read_rse_master_effect v d = some d) ∧
    (vgt v (5, 0, 0) = false → read_hide_tempo v d = some d) := by
  refine ⟨fun hv hlen => ?_, fun hv => ?_, fun hv => ?_, fun hv => ?_⟩
  · rw [read_rse_master_effect, if_pos hv]
    simp only [read_int_cons, obind_some]
    rw [← hlen, read_skip_append]
    simp
  · rw [read_hide_tempo, if_pos hv]
    simp [read_bool]
  · have hv' : ¬ (vgt v (5, 0, 0) = true) := by rw [hv]; exact Bool.false_ne_true
    rw [read_rse_master_effect, if_neg hv']
  · have hv' : ¬ (vgt v (5, 0, 0) = true) := by rw [hv]; exact Bool.false_ne_true
    rw [read_hide_tempo, if_neg hv']

/-- Witness for C8: version `(5, 1, 0)` consumes the 20-byte block and the
hide-tempo byte; version `(5, 0, 0)` consumes nothing. -/
theorem claim8_witness :
    read_rse_master_effect (5, 1, 0)
        [1, 2, 3, 4, 5, 6, 7, 8, 0, 0, 0, 0, 0, 0, 0, 0, 0, 0, 0, 31, 9] = some [9] ∧
    read_hide_tempo (5, 1, 0) [1, 9] = some [9] ∧
    read_rse_master_effect (5, 0, 0) [9, 9] = some [9, 9] ∧
    read_hide_tempo (5, 0, 0) [9, 9] = some [9, 9] := by
  refine ⟨?_, ?_, ?_, ?_⟩
  · have h := (claim8_rse_version_gate (5, 1, 0) 1 2 3 4 5 6 7 8 31 0
      [0, 0, 0, 0, 0, 0, 0, 0, 0, 0, 0] [9] []).1 (by decide) (by decide)
    simpa using h
  · exact (claim8_rse_version_gate (5, 1, 0) 0 0 0 0 0 0 0 0 0 1
      [] [9] []).2.1 (by decide)
  · exact (claim8_rse_version_gate (5, 0, 0) 0 0 0 0 0 0 0 0 0 0
      [] [] [9, 9]).2.2.1 (by decide)
  · exact (claim8_rse_version_gate (5, 0, 0) 0 0 0 0 0 0 0 0 0 0
      [] [] [9, 9]).2.2.2 (by decide)

/-- C7, the claim as stated is false: on the unrecognized version string
`"FICHIER GUITAR PRO v4.06"` the decoder does not fail — it succeeds and
silently keeps the `__init__` default tuple `(5, 0, 0)` (there is no
`UnsupportedVersion` path in `read_version`). -/
theorem claim7_counterexample :
    read_version (24 :: ((String.toList "FICHIER GUITAR PRO v4.06").map Char.toNat
        ++ [0, 0, 0, 0, 0, 0])) =
      some (((String.toList "FICHIER GUITAR PRO v4.06").map Char.toNat, (5, 0, 0)), []) ∧
    ¬ marker500 <:+: ((String.toList "FICHIER GUITAR PRO v4.06").map Char.toNat) ∧
    ¬ marker510 <:+: ((String.toList "FICHIER GUITAR PRO v4.06").map Char.toNat) := by
  exact ⟨by decide, by decide, by decide⟩

/-- C7 amended: `read_version` never fails on a nonempty stream (it reads the
1 length byte and 30 content bytes of the version field); a version string
containing `"FICHIER GUITAR PRO v5.00"` yields `(5, 0, 0)`, one containing
`"FICHIER GUITAR PRO v5.10"` (and not the former) yields `(5, 1, 0)`, and
any other string falls back to the default `(5, 0, 0)` with decoding
proceeding. -/
theorem claim7_version_markers (len : Nat) (rest s : List Nat) :
    read_version (len :: rest) =
      some ((rest.take len, version_tuple_of (rest.take len)), rest.drop 30) ∧
    (marker500 <:+: s → version_tuple_of s = (5, 0, 0)) ∧
    (¬ marker500 <:+: s → marker510 <:+: s → version_tuple_of s = (5, 1, 0)) ∧
    (¬ marker500 <:+: s → ¬ marker510 <:+: s → version_tuple_of s = (5, 0, 0)) := by
  refine ⟨by simp [read_version, read_byte_size_string], fun h => ?_,
    fun h1 h2 => ?_, fun h1 h2 => ?_⟩
  · simp [version_tuple_of, h]
  · simp [version_tuple_of, h1, h2]
  · simp [version_tuple_of, h1, h2]

/-- Witness for C7: the `v5.10` marker string itself maps to `(5, 1, 0)`, and
the all-zero string to the default `(5, 0, 0)`. -/
theorem claim7_witness :
    version_tuple_of marker510 = (5, 1, 0) ∧
    version_tuple_of (List.replicate 24 0) = (5, 0, 0) := by
  constructor
  · exact (claim7_version_markers 0 [] marker510).2.2.1 (by decide) (by decide)
  · exact (claim7_version_markers 0 [] (List.replicate 24 0)).2.2.2 (by decide) (by decide)

theorem readIf_byte_seg (c : Prop) [Decidable c] (b : Nat) (r : List Nat) :
    readIf c read_byte ((if c then [b] else []) ++ r) =
      some ((if c then some b else none), r) := by
  by_cases h : c <;> simp [readIf, h]

theorem readIf_marker_seg (c : Prop) [Decidable c] (nm : List Nat) (k1 k2 k3 k4 : Nat)
    (r : List Nat) (h : nm.length ≤ 254) :
    readIf c read_marker ((if c then enc_ibss nm ++ [k1, k2, k3, k4] else []) ++ r) =
      some ((if c then some nm else none), r) := by
  by_cases hc : c
  · simp only [if_pos hc, readIf, List.append_assoc]
    rw [read_marker, read_ibss_enc nm (by omega)]
    simp
  · simp [readIf, hc]

theorem skipIf_seg1 (c : Prop) [Decidable c] (a : Nat) (r : List Nat) :
    skipIf c (read_skip 1) ((if c then [a] else []) ++ r) = some r := by
  by_cases h : c <;> simp [skipIf, h]

theorem skipIf_seg2 (c : Prop) [Decidable c] (a b : Nat) (r : List Nat) :
    skipIf c (read_skip 2) ((if c then [a, b] else []) ++ r) = some r := by
  by_cases h : c <;> simp [skipIf, h]

theorem skipIf_seg4 (c : Prop) [Decidable c] (a b e f : Nat) (r : List Nat) :
    skipIf c (read_skip 4) ((if c then [a, b, e, f] else []) ++ r) = some r := by
  by_cases h : c <;> simp [skipIf, h]

theorem drop_seg (c : Prop) [Decidable c] (a : Nat) (r : List Nat) :
    (if c then (((if c then [a] else []) ++ r).drop 1) else ((if c then [a] else []) ++ r)) =
      r := by
  by_cases h : c <;> simp [h]

/-- C5, the claim as stated is false: the decoder does not read the optional
measure-header fields in ascending bit order.  On the concrete header
`flags 0x30` (marker bit5 + repeat-alternative bit4) followed by a marker
block, 4 color bytes, the alternative byte and the triplet byte, the source
decoder (marker before alternative) succeeds with marker name `[0x42]`,
while a decoder reading the bit4 byte before the marker (the claimed order)
misparses the stream entirely. -/
theorem claim5_counterexample :
    read_measure_header [0x30, 2, 0, 0, 0, 1, 0x42, 1, 2, 3, 4, 9, 7] =
      some ({ flags := 0x30, numerator := none, denominator := none,
              repeatOpen := false, repeatClose := none,
              marker := some [0x42], doubleBar := false }, []) ∧
    read_measure_header_claimed [0x30, 2, 0, 0, 0, 1, 0x42, 1, 2, 3, 4, 9, 7] = none := by
  exact ⟨by decide, by decide⟩

/-- C5 amended: the measure-header flags byte gates its optional fields in
the source order numerator (bit0), denominator (bit1), repeat-open (bit2, no
payload), repeat-close count (bit3), then marker block plus 4 color bytes
(bit5), then key-signature 2 bytes (bit6), then repeat-alternative byte
(bit4), double-bar (bit7, no payload); 4 beam bytes follow iff bit0 or bit1
is set, one placeholder byte follows iff bit4 is clear, and the header ends
with the triplet-feel byte.  Stated as: for any flags byte and field
payloads laid out in exactly that order, the decoder consumes them all and
stores each payload in its own field. -/
theorem claim5_header_field_order (flags num den rc k1 k2 k3 k4 ks1 ks2 alt
    bm1 bm2 bm3 bm4 ph tf : Nat) (nm r : List Nat) (hnm : nm.length ≤ 254) :
    read_measure_header (flags ::
      ((if flags &&& 0x01 ≠ 0 then [num] else []) ++
       ((if flags &&& 0x02 ≠ 0 then [den] else []) ++
        ((if flags &&& 0x08 ≠ 0 then [rc] else []) ++
         ((if flags &&& 0x20 ≠ 0 then enc_ibss nm ++ [k1, k2, k3, k4] else []) ++
          ((if flags &&& 0x40 ≠ 0 then [ks1, ks2] else []) ++
           ((if flags &&& 0x10 ≠ 0 then [alt] else []) ++
            ((if flags &&& 0x03 ≠ 0 then [bm1, bm2, bm3, bm4] else []) ++
             ((if flags &&& 0x10 = 0 then [ph] else []) ++ (tf :: r)))))))))) =
      some ({ flags := flags,
              numerator := if flags &&& 0x01 ≠ 0 then some num else none,
              denominator := if flags &&& 0x02 ≠ 0 then some den else none,
              repeatOpen := flags &&& 0x04 ≠ 0,
              repeatClose := if flags &&& 0x08 ≠ 0 then some rc else none,
              marker := if flags &&& 0x20 ≠ 0 then some nm else none,
              doubleBar := flags &&& 0x80 ≠ 0 }, r) := by
  simp only [read_measure_header, read_byte_cons, obind_some, sbind_some,
    readIf_byte_seg, readIf_marker_seg _ nm k1 k2 k3 k4 _ hnm,
    skipIf_seg1, skipIf_seg2, skipIf_seg4, drop_seg]

/-- Witness for C5: a header with every optional field present
(`flags 0xFF`, marker name `"M"`), decoded concretely. -/
theorem claim5_witness :
    read_measure_header [0xFF, 4, 3, 7, 2, 0, 0, 0, 1, 77, 10, 11, 12, 13, 60, 61, 2,
        21, 22, 23, 24, 1, 9] =
      some ({ flags := 0xFF, numerator := some 4, denominator := some 3,
              repeatOpen := true, repeatClose := some 7,
              marker := some [77], doubleBar := true }, [9]) := by
  have h := claim5_header_field_order 0xFF 4 3 7 10 11 12 13 60 61 2
    21 22 23 24 0 1 [77] [9] (by decide)
  simpa using h

/-- C10: after the trailing flags2 short of a beat, exactly one extra byte is
consumed iff bit 11 (mask 0x0800) of that short is set: for any flags2 bytes
`b0 b1`, the beat (here a minimal one: flags 0, any duration, empty string
mask) ends exactly at the short when the bit is clear and exactly one byte
later when it is set. -/
theorem claim10_flags2_extra_byte (v : Version) (dur b0 b1 x : Nat) (r : List Nat) :
    read_beat v ([0x00, dur, 0x00, b0, b1] ++
        (if short_bit (sint16 (b0 + 256 * b1)) 0x0800 then [x] else []) ++ r) =
      some ({ flags := 0, status := none, duration := sint8 dur, tuplet := none,
              text := none, stringFlags := 0, notes := [],
              bflags2 := sint16 (b0 + 256 * b1) }, r) := by
  by_cases hb : short_bit (sint16 (b0 + 256 * b1)) 0x0800 = true
  · simp [read_beat, readIf, skipIf, read_notes, hb]
  · simp [read_beat, readIf, skipIf, read_notes, hb]


/-- Two's-complement byte encoding inverts to the signed value. -/
theorem sint8_enc_sbyte (i : Int) (h1 : -128 ≤ i) (h2 : i < 128) :
    sint8 (enc_sbyte i) = i := by
  unfold sint8 enc_sbyte
  omega

theorem sint16_mod (i : Int) (h1 : -32768 ≤ i) (h2 : i < 32768) :
    sint16 (i % 65536).toNat = i := by
  unfold sint16
  omega

/-- The signed short encoding inverts through `read_short`. -/
theorem read_short_enc (i : Int) (h1 : -32768 ≤ i) (h2 : i < 32768) (r : List Nat) :
    read_short (enc_short i ++ r) = some (i, r) := by
  unfold enc_short
  simp only [List.cons_append, List.nil_append, read_short_cons]
  have heq : (i % 65536).toNat % 256 + 256 * ((i % 65536).toNat / 256) =
      (i % 65536).toNat := by omega
  rw [heq, sint16_mod i h1 h2]

theorem sint32_mod (i : Int) (h1 : -2147483648 ≤ i) (h2 : i < 2147483648) :
    sint32 (i % 4294967296).toNat = i := by
  unfold sint32
  omega

/-- The signed int encoding inverts through `read_int`. -/
theorem read_int_enc_int (i : Int) (h1 : -2147483648 ≤ i) (h2 : i < 2147483648)
    (r : List Nat) :
    read_int (enc_int i ++ r) = some (i, r) := by
  unfold enc_int enc32
  simp only [List.cons_append, List.nil_append, read_int_cons]
  have heq : (i % 4294967296).toNat % 256 + 256 * ((i % 4294967296).toNat / 256 % 256) +
      65536 * ((i % 4294967296).toNat / 65536 % 256) +
      16777216 * ((i % 4294967296).toNat / 16777216 % 256) = (i % 4294967296).toNat := by
    omega
  rw [heq, sint32_mod i h1 h2]

/-- A flag-gated optional written back from its stored value is the stored
optional, whenever its presence matches the gate. -/
theorem opt_getD_if {α : Type} (o : Option α) (c : Prop) [Decidable c] (z : α)
    (h : o.isSome ↔ c) : (if c then some (o.getD z) else none) = o := by
  by_cases hc : c
  · obtain ⟨x, hx⟩ := Option.isSome_iff_exists.mp (h.mpr hc)
    simp [hc, hx]
  · have hnone : o = none := by
      cases ho : o with
      | none => rfl
      | some x => exact absurd (h.mp (by simp [ho])) hc
    simp [hc, hnone]

theorem readIf_int_enc (c : Prop) [Decidable c] (x : Int)
    (h1 : -2147483648 ≤ x) (h2 : x < 2147483648) (r : List Nat) :
    readIf c read_int ((if c then enc_int x else []) ++ r) =
      some ((if c then some x else none), r) := by
  by_cases hc : c
  · simp only [if_pos hc, readIf, read_int_enc_int x h1 h2, obind_some]
  · simp [readIf, hc]

theorem readIf_ibss_enc (c : Prop) [Decidable c] (s : List Nat)
    (hs : s.length ≤ 255) (r : List Nat) :
    readIf c read_int_byte_size_string ((if c then enc_ibss s else []) ++ r) =
      some ((if c then some s else none), r) := by
  by_cases hc : c
  · simp only [if_pos hc, readIf, read_ibss_enc s hs, obind_some]
  · simp [readIf, hc]

/-- Round trip of a single note: re-decoding an encoded well-formed note
recovers every stored field (the `string` label is reattached by the beat's
note loop, so `read_note` itself returns it as 0). -/
theorem read_note_encode (n : Note) (hwf : WFNote n) (r : List Nat) :
    read_note (encode_note n ++ r) = some ({ n with string := 0 }, r) := by
  obtain ⟨h80, h01, h08, hty, hvel, hvelr, hfr1, hfr2, hfr0⟩ := hwf
  have hfs : sint8 (enc_sbyte n.fret) = n.fret := sint8_enc_sbyte n.fret hfr1 hfr2
  rcases n with ⟨flags, ntype, velocity, fret, nflags2, string⟩
  rw [Nat.and_one_is_mod] at h01
  simp only at h80 h01 h08 hty hvel hvelr hfr0 hfs ⊢
  cases ntype with
  | none =>
    simp only [Option.isSome_none, Bool.false_eq_true, false_iff, ne_eq,
      Decidable.not_not] at hty
    cases velocity with
    | none =>
      simp only [Option.isSome_none, Bool.false_eq_true, false_iff, ne_eq,
        Decidable.not_not] at hvel
      simp [encode_note, read_note, readIf, skipIf, hty, hvel, h80, h01, h08,
        hfr0 hty]
    | some x =>
      simp only [Option.isSome_some, true_iff] at hvel
      have hx := hvelr x (by simp)
      have hs : sint8 (enc_sbyte x) = x := sint8_enc_sbyte x hx.1 hx.2
      simp [encode_note, read_note, readIf, skipIf, hty, hvel, h80, h01, h08,
        hs, hfr0 hty]
  | some t =>
    simp only [Option.isSome_some, true_iff] at hty
    cases velocity with
    | none =>
      simp only [Option.isSome_none, Bool.false_eq_true, false_iff, ne_eq,
        Decidable.not_not] at hvel
      simp [encode_note, read_note, readIf, skipIf, hty, hvel, h80, h01, h08, hfs]
    | some x =>
      simp only [Option.isSome_some, true_iff] at hvel
      have hx := hvelr x (by simp)
      have hs : sint8 (enc_sbyte x) = x := sint8_enc_sbyte x hx.1 hx.2
      simp [encode_note, read_note, readIf, skipIf, hty, hvel, h80, h01, h08, hs, hfs]

/-- Round trip of the note loop: when the stored string labels line up with
the set bits of the mask, the loop re-reads exactly the encoded notes. -/
theorem read_notes_encode (mask : Nat) (ss : List Nat) :
    ∀ (notes : List Note) (r : List Nat),
      notes.map Note.string =
        ss.filterMap (fun s => if mask &&& (1 <<< s) ≠ 0 then some (6 - s) else none) →
      (∀ n ∈ notes, WFNote n) →
      read_notes mask ss ((notes.map encode_note).flatten ++ r) = some (notes, r) := by
  induction ss with
  | nil =>
    intro notes r hmap hwf
    simp only [List.filterMap_nil, List.map_eq_nil_iff] at hmap
    subst hmap
    simp [read_notes]
  | cons s ss ih =>
    intro notes r hmap hwf
    by_cases hbit : mask &&& (1 <<< s) ≠ 0
    · rw [List.filterMap_cons, if_pos hbit] at hmap
      cases notes with
      | nil => simp at hmap
      | cons n rest =>
        simp only [List.map_cons, List.cons.injEq] at hmap
        obtain ⟨hstr, hmaprest⟩ := hmap
        have hwfn := hwf n (by simp)
        rw [read_notes, if_pos hbit]
        simp only [List.map_cons, List.flatten_cons, List.append_assoc]
        rw [read_note_encode n hwfn, obind_some]
        rw [ih rest r hmaprest (fun m hm => hwf m (by simp [hm])), obind_some]
        have hn : { ({ n with string := 0 } : Note) with string := 6 - s } = n := by
          cases n
          simp only at hstr
          simp [hstr]
        rw [hn]
    · rw [List.filterMap_cons, if_neg hbit] at hmap
      rw [read_notes, if_neg hbit]
      exact ih notes r hmap hwf

/-- Round trip of a whole beat: re-decoding an encoded well-formed beat
recovers the beat exactly, for either value of the flags2 bit-11 extra
byte and any decoder version. -/
theorem read_beat_encode (v : Version) (b : Beat) (hwf : WFBeat b) (r : List Nat) :
    read_beat v (encode_beat b ++ r) = some (b, r) := by
  obtain ⟨h02, h08, h10, hst, hd1, hd2, htup, htupr, htext, htextr,
    hf1, hf2, hmap, hnwf⟩ := hwf
  have hds : sint8 (enc_sbyte b.duration) = b.duration := sint8_enc_sbyte b.duration hd1 hd2
  have htupd : -2147483648 ≤ b.tuplet.getD 0 ∧ b.tuplet.getD 0 < 2147483648 := by
    cases htup2 : b.tuplet with
    | none => simp
    | some x =>
      have := htupr x (by simp [htup2])
      simpa [htup2] using this
  have htextd : (b.text.getD []).length ≤ 255 := by
    cases htext2 : b.text with
    | none => simp
    | some s =>
      have := htextr s (by simp [htext2])
      simpa [htext2] using this
  have hshort := read_short_enc b.bflags2 hf1 hf2
  have hmap2 : b.notes.map Note.string =
      [6, 5, 4, 3, 2, 1, 0].filterMap
        (fun s => if b.stringFlags &&& (1 <<< s) ≠ 0 then some (6 - s) else none) := hmap
  have hnotes := fun r2 =>
    read_notes_encode b.stringFlags [6, 5, 4, 3, 2, 1, 0] b.notes r2 hmap2 hnwf
  have hstatus := opt_getD_if b.status (b.flags &&& 0x40 ≠ 0) 0 hst
  have htupo := opt_getD_if b.tuplet (b.flags &&& 0x20 ≠ 0) 0 htup
  have htexto := opt_getD_if b.text (b.flags &&& 0x04 ≠ 0) [] htext
  have htseg := fun r2 => readIf_int_enc (b.flags &&& 0x20 ≠ 0) (b.tuplet.getD 0)
    htupd.1 htupd.2 r2
  have hxseg := fun r2 => readIf_ibss_enc (b.flags &&& 0x04 ≠ 0) (b.text.getD [])
    htextd r2
  have hc02 : ¬ (b.flags &&& 0x02 ≠ 0) := by simp [h02]
  have hc08 : ¬ (b.flags &&& 0x08 ≠ 0) := by simp [h08]
  have hc10 : ¬ (b.flags &&& 0x10 ≠ 0) := by simp [h10]
  by_cases hbit : short_bit b.bflags2 0x0800 = true
  · simp only [encode_beat, read_beat, List.append_assoc, List.cons_append,
      List.nil_append, obind_some, sbind_some, read_byte_cons, read_sbyte_cons,
      readIf_byte_seg, htseg, hxseg, hds, hstatus, htupo, htexto, hnotes, hshort,
      skipIf_neg _ hc02, skipIf_neg _ hc08, skipIf_neg _ hc10, hbit, if_pos,
      read_skip_succ_cons, read_skip_zero, if_true]
    simp [skipIf]
  · have hbitf : short_bit b.bflags2 0x0800 = false := by
      revert hbit
      cases short_bit b.bflags2 0x0800 <;> simp
    simp only [encode_beat, read_beat, List.append_assoc, List.cons_append,
      List.nil_append, obind_some, sbind_some, read_byte_cons, read_sbyte_cons,
      readIf_byte_seg, htseg, hxseg, hds, hstatus, htupo, htexto, hnotes, hshort,
      skipIf_neg _ hc02, skipIf_neg _ hc08, skipIf_neg _ hc10, hbitf,
      Bool.false_eq_true, if_false]
    simp [skipIf]

/-- Round trip of a beat list of known length. -/
theorem read_beats_encode (v : Version) (bs : List Beat) :
    ∀ r, (∀ b ∈ bs, WFBeat b) →
      read_beats v bs.length ((bs.map encode_beat).flatten ++ r) = some (bs, r) := by
  induction bs with
  | nil =>
    intro r h
    simp [read_beats]
  | cons b bs ih =>
    intro r h
    simp only [List.length_cons, List.map_cons, List.flatten_cons, List.append_assoc]
    rw [read_beats, read_beat_encode v b (h b (by simp)), obind_some,
      ih r (fun x hx => h x (by simp [hx])), obind_some]

/-- Round trip of one voice: re-decoding an encoded list of at most 128
well-formed beats recovers the list exactly. -/
theorem read_voice_encode (v : Version) (bs : List Beat) (r : List Nat)
    (hwf : ∀ b ∈ bs, WFBeat b) (hlen : bs.length ≤ 128) :
    read_voice v (encode_voice bs ++ r) = some (bs, r) := by
  rw [encode_voice, List.append_assoc, read_voice,
    read_int_enc32 bs.length (by omega), obind_some]
  rw [if_neg (by omega)]
  have ht : ((bs.length : Int)).toNat = bs.length := by omega
  rw [ht]
  exact read_beats_encode v bs r hwf

theorem sint8_bounds (u : Nat) : -128 ≤ sint8 u ∧ sint8 u < 128 := by
  unfold sint8
  split_ifs <;> omega

theorem sint16_bounds (u : Nat) : -32768 ≤ sint16 u ∧ sint16 u < 32768 := by
  unfold sint16
  split_ifs <;> omega

theorem sint32_bounds (u : Nat) : -2147483648 ≤ sint32 u ∧ sint32 u < 2147483648 := by
  unfold sint32
  split_ifs <;> omega

/-- A flag-gated read yields a value exactly when the gate holds. -/
theorem readIf_isSome {α : Type} {c : Prop} [Decidable c]
    {rd : List Nat → Option (α × List Nat)} {d : List Nat} {o : Option α}
    {d2 : List Nat} (h : readIf c rd d = some (o, d2)) : o.isSome ↔ c := by
  by_cases hc : c
  · rw [readIf, if_pos hc] at h
    obtain ⟨a, d1, -, h2⟩ := obind_eq_some.mp h
    simp only [Option.some.injEq, Prod.mk.injEq] at h2
    simp [← h2.1, hc]
  · rw [readIf, if_neg hc] at h
    simp only [Option.some.injEq, Prod.mk.injEq] at h
    simp [← h.1, hc]

theorem read_sbyte_val {d : List Nat} {a : Int} {d2 : List Nat}
    (h : read_sbyte d = some (a, d2)) : ∃ u, a = sint8 u := by
  cases d with
  | nil => simp [read_sbyte, read_byte] at h
  | cons b d =>
    refine ⟨b, ?_⟩
    simp only [read_sbyte_cons, Option.some.injEq, Prod.mk.injEq] at h
    exact h.1.symm

theorem read_short_val {d : List Nat} {a : Int} {d2 : List Nat}
    (h : read_short d = some (a, d2)) : ∃ u, a = sint16 u := by
  match d with
  | [] => simp [read_short] at h
  | [b] => simp [read_short] at h
  | b0 :: b1 :: d =>
    refine ⟨b0 + 256 * b1, ?_⟩
    simp only [read_short_cons, Option.some.injEq, Prod.mk.injEq] at h
    exact h.1.symm

theorem read_int_val {d : List Nat} {a : Int} {d2 : List Nat}
    (h : read_int d = some (a, d2)) : ∃ u, a = sint32 u := by
  match d with
  | [] => simp [read_int] at h
  | [b] => simp [read_int] at h
  | [b, c] => simp [read_int] at h
  | [b, c, e] => simp [read_int] at h
  | b0 :: b1 :: b2 :: b3 :: d =>
    refine ⟨b0 + 256 * b1 + 65536 * b2 + 16777216 * b3, ?_⟩
    simp only [read_int_cons, Option.some.injEq, Prod.mk.injEq] at h
    exact h.1.symm

theorem readIf_sbyte_range {c : Prop} [Decidable c] {d : List Nat}
    {o : Option Int} {d2 : List Nat} (h : readIf c read_sbyte d = some (o, d2)) :
    ∀ x ∈ o, -128 ≤ x ∧ x < 128 := by
  by_cases hc : c
  · rw [readIf, if_pos hc] at h
    obtain ⟨a, d1, ha, h2⟩ := obind_eq_some.mp h
    simp only [Option.some.injEq, Prod.mk.injEq] at h2
    obtain ⟨u, hu⟩ := read_sbyte_val ha
    intro x hx
    rw [← h2.1] at hx
    simp only [Option.mem_def, Option.some.injEq] at hx
    rw [← hx, hu]
    exact sint8_bounds u
  · rw [readIf, if_neg hc] at h
    simp only [Option.some.injEq, Prod.mk.injEq] at h
    intro x hx
    rw [← h.1] at hx
    simp at hx

theorem readIf_int_range {c : Prop} [Decidable c] {d : List Nat}
    {o : Option Int} {d2 : List Nat} (h : readIf c read_int d = some (o, d2)) :
    ∀ x ∈ o, -2147483648 ≤ x ∧ x < 2147483648 := by
  by_cases hc : c
  · rw [readIf, if_pos hc] at h
    obtain ⟨a, d1, ha, h2⟩ := obind_eq_some.mp h
    simp only [Option.some.injEq, Prod.mk.injEq] at h2
    obtain ⟨u, hu⟩ := read_int_val ha
    intro x hx
    rw [← h2.1] at hx
    simp only [Option.mem_def, Option.some.injEq] at hx
    rw [← hx, hu]
    exact sint32_bounds u
  · rw [readIf, if_neg hc] at h
    simp only [Option.some.injEq, Prod.mk.injEq] at h
    intro x hx
    rw [← h.1] at hx
    simp at hx

/-- `WFNote` never constrains the `string` label. -/
theorem WFNote_string_update (m : Note) (k : Nat) :
    WFNote { m with string := k } ↔ WFNote m := by
  cases m
  simp [WFNote]

/-- Every note the decoder builds satisfies `WFNote` as soon as its flags
request none of the payloads the decoder discards (fingering bit7,
duration-percent bit0, note-effects bit3). -/
theorem read_note_wf {d : List Nat} {n : Note} {r : List Nat}
    (h : read_note d = some (n, r))
    (h80 : n.flags &&& 0x80 = 0) (h01 : n.flags &&& 0x01 = 0)
    (h08 : n.flags &&& 0x08 = 0) : WFNote n := by
  rw [read_note] at h
  obtain ⟨flags, d1, -, h⟩ := obind_eq_some.mp h
  obtain ⟨nt, d2, hnt, h⟩ := obind_eq_some.mp h
  obtain ⟨vel, d3, hvel, h⟩ := obind_eq_some.mp h
  obtain ⟨fr, d4, hfr, h⟩ := obind_eq_some.mp h
  obtain ⟨d5, -, h⟩ := sbind_eq_some.mp h
  obtain ⟨d6, -, h⟩ := sbind_eq_some.mp h
  obtain ⟨nf2, d7, -, h⟩ := obind_eq_some.mp h
  obtain ⟨d8, -, h⟩ := sbind_eq_some.mp h
  simp only [Option.some.injEq, Prod.mk.injEq] at h
  obtain ⟨hn, -⟩ := h
  subst hn
  simp only at h80 h01 h08 ⊢
  have hfrr : -128 ≤ fr.getD 0 ∧ fr.getD 0 < 128 := by
    cases hfr2 : fr with
    | none => simp
    | some x =>
      have := readIf_sbyte_range hfr x (by simp [hfr2])
      simpa using this
  refine ⟨h80, h01, h08, readIf_isSome hnt, readIf_isSome hvel,
    readIf_sbyte_range hvel, hfrr.1, hfrr.2, fun hclear => ?_⟩
  simp only at hclear
  have hnone : fr = none := by
    cases hfr2 : fr with
    | none => rfl
    | some x =>
      have hiff := readIf_isSome hfr
      rw [hfr2] at hiff
      simp only [Option.isSome_some, true_iff] at hiff
      exact absurd hclear hiff
  simp [hnone]

/-- Every note of a successfully decoded beat is a `read_note` result with a
relabelled string. -/
theorem read_notes_notes (mask : Nat) (ss : List Nat) :
    ∀ d res r, read_notes mask ss d = some (res, r) →
      ∀ n ∈ res, ∃ d1 m r1 k, read_note d1 = some (m, r1) ∧ n = { m with string := k } := by
  induction ss with
  | nil =>
    intro d res r h
    simp only [read_notes, Option.some.injEq, Prod.mk.injEq] at h
    rw [← h.1]
    simp
  | cons s ss ih =>
    intro d res r h
    rw [read_notes] at h
    by_cases hbit : mask &&& (1 <<< s) ≠ 0
    · rw [if_pos hbit] at h
      obtain ⟨note, d1, hn, h⟩ := obind_eq_some.mp h
      obtain ⟨rest, d2, hr, h⟩ := obind_eq_some.mp h
      simp only [Option.some.injEq, Prod.mk.injEq] at h
      obtain ⟨hres, -⟩ := h
      rw [← hres]
      intro n hn2
      simp only [List.mem_cons] at hn2
      rcases hn2 with rfl | hn2
      · exact ⟨d, note, d1, 6 - s, hn, rfl⟩
      · exact ih d1 rest d2 hr n hn2
    · rw [if_neg hbit] at h
      exact ih d res r h

/-- Every beat the decoder builds satisfies `WFBeat` as soon as (a) its
flags request none of the payloads the decoder discards (chord bit1,
beat-effects bit3, mix-table bit4), (b) likewise for its notes' flags, and
(c) its text fits a length byte (automatic for genuine byte streams, whose
length byte is at most 255).  So `WFBeat` is no extra restriction beyond
the discarded-payload flags that `claim1_counterexample` shows cannot
round-trip. -/
theorem read_beat_wf {v : Version} {d : List Nat} {b : Beat} {r : List Nat}
    (h : read_beat v d = some (b, r))
    (hb2 : b.flags &&& 0x02 = 0) (hb8 : b.flags &&& 0x08 = 0)
    (hb10 : b.flags &&& 0x10 = 0)
    (hnb : ∀ n ∈ b.notes,
      n.flags &&& 0x80 = 0 ∧ n.flags &&& 0x01 = 0 ∧ n.flags &&& 0x08 = 0)
    (ht : ∀ s ∈ b.text, s.length ≤ 255) : WFBeat b := by
  rw [read_beat] at h
  obtain ⟨flags, d1, -, h⟩ := obind_eq_some.mp h
  obtain ⟨status, d2, hstat, h⟩ := obind_eq_some.mp h
  obtain ⟨dur, d3, hdur, h⟩ := obind_eq_some.mp h
  obtain ⟨tup, d4, htup, h⟩ := obind_eq_some.mp h
  obtain ⟨d5, -, h⟩ := sbind_eq_some.mp h
  obtain ⟨text, d6, htext, h⟩ := obind_eq_some.mp h
  obtain ⟨d7, -, h⟩ := sbind_eq_some.mp h
  obtain ⟨d8, -, h⟩ := sbind_eq_some.mp h
  obtain ⟨mask, d9, -, h⟩ := obind_eq_some.mp h
  obtain ⟨notes, d10, hnotes, h⟩ := obind_eq_some.mp h
  obtain ⟨f2, d11, hf2, h⟩ := obind_eq_some.mp h
  obtain ⟨d12, -, h⟩ := sbind_eq_some.mp h
  simp only [Option.some.injEq, Prod.mk.injEq] at h
  obtain ⟨hb, -⟩ := h
  subst hb
  simp only at hb2 hb8 hb10 hnb ht ⊢
  obtain ⟨ud, hud⟩ := read_sbyte_val hdur
  obtain ⟨uf, huf⟩ := read_short_val hf2
  refine ⟨hb2, hb8, hb10, readIf_isSome hstat, ?_, ?_, readIf_isSome htup,
    readIf_int_range htup, readIf_isSome htext, ht, ?_, ?_,
    read_notes_spec mask [6, 5, 4, 3, 2, 1, 0] d9 notes d10 hnotes, ?_⟩
  · rw [hud]
    exact (sint8_bounds ud).1
  · rw [hud]
    exact (sint8_bounds ud).2
  · rw [huf]
    exact (sint16_bounds uf).1
  · rw [huf]
    exact (sint16_bounds uf).2
  · intro n hn
    obtain ⟨d1, m, r1, k, hm, rfl⟩ := read_notes_notes mask [6, 5, 4, 3, 2, 1, 0]
      d9 notes d10 hnotes n hn
    obtain ⟨hm80, hm01, hm08⟩ := hnb _ hn
    simp only at hm80 hm01 hm08
    exact (WFNote_string_update m k).mpr (read_note_wf hm hm80 hm01 hm08)

end GP5
